import Mathlib

/-!
Verification of `src/proto/media/file/info.rs` (uefi-rs): variable-length
UEFI file-information records (a fixed `repr(C)` header followed by a
null-terminated UCS-2 name tail) built in place inside a caller-provided
byte buffer.

The embedding is byte-level: a storage buffer is its starting address
(`addr : Nat`) together with its byte contents (`List Nat`, one entry per
byte, values `< 256` for well-formed memory).  Multi-byte fields are
little-endian, as on every architecture UEFI targets.  `u64`/`u32`/`bool`
header fields and the 16-bit `Char16` tail elements are serialized through
`toBytesLE`.  Rust `char` is modelled by Lean `Char` (both are exactly the
Unicode scalar values).
-/

namespace UefiFileInfo

/-- Round `n` up to the next multiple of `a` (the rounding `repr(C)`
layout performs to place each field at the next offset matching its
alignment). -/
def alignUp (n a : Nat) : Nat := (n + a - 1) / a * a

theorem le_alignUp (n a : Nat) (h : 0 < a) : n ≤ alignUp n a := by
  have h1 := Nat.div_add_mod (n + a - 1) a
  have h2 : (n + a - 1) % a < a := Nat.mod_lt _ h
  unfold alignUp
  rw [Nat.mul_comm]
  omega

/-- Little-endian byte image of `v`, `w` bytes wide (`v` is truncated to
`w` bytes, exactly as storing a machine integer does). -/
def toBytesLE : Nat → Nat → List Nat
  | 0, _ => []
  | w + 1, v => v % 256 :: toBytesLE w (v / 256)

/-- Value of a little-endian byte list. -/
def fromBytesLE : List Nat → Nat
  | [] => 0
  | b :: bs => b + 256 * fromBytesLE bs

theorem length_toBytesLE (w v : Nat) : (toBytesLE w v).length = w := by
  induction w generalizing v with
  | zero => rfl
  | succ w ih => simp [toBytesLE, ih]

theorem fromBytesLE_toBytesLE (w v : Nat) :
    fromBytesLE (toBytesLE w v) = v % 2 ^ (8 * w) := by
  induction w generalizing v with
  | zero => simp [toBytesLE, fromBytesLE, Nat.mod_one]
  | succ w ih =>
    have hpow : (2 : Nat) ^ (8 * (w + 1)) = 256 * 2 ^ (8 * w) := by
      rw [show 8 * (w + 1) = 8 + 8 * w by omega, Nat.pow_add]
    rw [toBytesLE, fromBytesLE, ih, hpow, Nat.mod_mul]

/-- Overwrite the bytes of `d` starting at offset `off` with `src`
(out-of-range positions are dropped, like `List.set`). -/
def writeBytes : List Nat → Nat → List Nat → List Nat
  | d, _, [] => d
  | d, off, b :: bs => writeBytes (d.set off b) (off + 1) bs

/-- Read `w` bytes of `d` starting at offset `off` (0 past the end). -/
def readBytes : List Nat → Nat → Nat → List Nat
  | _, _, 0 => []
  | d, off, w + 1 => d.getD off 0 :: readBytes d (off + 1) w

theorem length_writeBytes (src : List Nat) (d : List Nat) (off : Nat) :
    (writeBytes d off src).length = d.length := by
  induction src generalizing d off with
  | nil => rfl
  | cons b bs ih => rw [writeBytes, ih, List.length_set]

theorem getD_set_ne (l : List Nat) (i j a : Nat) (h : i ≠ j) :
    (l.set i a).getD j 0 = l.getD j 0 := by
  induction l generalizing i j with
  | nil => rfl
  | cons b bs ih =>
    cases i with
    | zero =>
      cases j with
      | zero => omega
      | succ j => rfl
    | succ i =>
      cases j with
      | zero => rfl
      | succ j =>
        show (bs.set i a).getD j 0 = bs.getD j 0
        exact ih i j (by omega)

theorem getD_set_eq (l : List Nat) (i a : Nat) (h : i < l.length) :
    (l.set i a).getD i 0 = a := by
  induction l generalizing i with
  | nil => simp at h
  | cons b bs ih =>
    cases i with
    | zero => rfl
    | succ i =>
      show (bs.set i a).getD i 0 = a
      exact ih i (by simpa using h)

theorem getD_writeBytes_low (src : List Nat) (d : List Nat) (off i : Nat)
    (h : i < off) : (writeBytes d off src).getD i 0 = d.getD i 0 := by
  induction src generalizing d off with
  | nil => rfl
  | cons b bs ih =>
    rw [writeBytes, ih _ _ (by omega), getD_set_ne _ _ _ _ (by omega)]

theorem getD_writeBytes_high (src : List Nat) (d : List Nat) (off i : Nat)
    (h : off + src.length ≤ i) :
    (writeBytes d off src).getD i 0 = d.getD i 0 := by
  induction src generalizing d off with
  | nil => rfl
  | cons b bs ih =>
    rw [writeBytes, ih _ _ (by simp at h; omega),
      getD_set_ne _ _ _ _ (by simp at h; omega)]

theorem getD_writeBytes_mid (src : List Nat) (d : List Nat) (off i : Nat)
    (h1 : off ≤ i) (h2 : i < off + src.length) (h3 : off + src.length ≤ d.length) :
    (writeBytes d off src).getD i 0 = src.getD (i - off) 0 := by
  induction src generalizing d off with
  | nil => simp at h2; omega
  | cons b bs ih =>
    by_cases hi : i = off
    · subst hi
      rw [writeBytes, getD_writeBytes_low _ _ _ _ (by omega),
        getD_set_eq _ _ _ (by simp at h3; omega), Nat.sub_self]
      rfl
    · rw [writeBytes, ih (d.set off b) (off + 1) (by omega)
        (by simp at h2 ⊢; omega) (by simp at h3 ⊢; omega)]
      have hio : i - off = (i - (off + 1)) + 1 := by omega
      rw [hio]
      rfl

theorem readBytes_congr (d1 d2 : List Nat) (off w : Nat)
    (h : ∀ i, off ≤ i → i < off + w → d1.getD i 0 = d2.getD i 0) :
    readBytes d1 off w = readBytes d2 off w := by
  induction w generalizing off with
  | zero => rfl
  | succ w ih =>
    rw [readBytes, readBytes, h off (by omega) (by omega),
      ih (off + 1) (fun i hi1 hi2 => h i (by omega) (by omega))]

theorem readBytes_writeBytes_low (src d : List Nat) (off' off w : Nat)
    (h : off + w ≤ off') :
    readBytes (writeBytes d off' src) off w = readBytes d off w :=
  readBytes_congr _ _ _ _ fun i _ hi2 => getD_writeBytes_low _ _ _ _ (by omega)

theorem readBytes_writeBytes_high (src d : List Nat) (off' off w : Nat)
    (h : off' + src.length ≤ off) :
    readBytes (writeBytes d off' src) off w = readBytes d off w :=
  readBytes_congr _ _ _ _ fun i hi1 _ => getD_writeBytes_high _ _ _ _ (by omega)

theorem readBytes_writeBytes (src d : List Nat) (off : Nat)
    (h : off + src.length ≤ d.length) :
    readBytes (writeBytes d off src) off src.length = src := by
  induction src generalizing d off with
  | nil => rfl
  | cons b bs ih =>
    show readBytes (writeBytes d off (b :: bs)) off (bs.length + 1) = b :: bs
    rw [readBytes, writeBytes, getD_writeBytes_low _ _ _ _ (by omega),
      getD_set_eq _ _ _ (by simp at h; omega),
      ih (d.set off b) (off + 1) (by simp at h ⊢; omega)]

/-- Read a `w`-byte little-endian unsigned integer at offset `off`. -/
def readLE (d : List Nat) (off w : Nat) : Nat := fromBytesLE (readBytes d off w)

theorem readLE_writeBytes_low (src d : List Nat) (off' off w : Nat)
    (h : off + w ≤ off') :
    readLE (writeBytes d off' src) off w = readLE d off w := by
  rw [readLE, readBytes_writeBytes_low src d off' off w h, readLE]

theorem readLE_writeBytes_high (src d : List Nat) (off' off w : Nat)
    (h : off' + src.length ≤ off) :
    readLE (writeBytes d off' src) off w = readLE d off w := by
  rw [readLE, readBytes_writeBytes_high src d off' off w h, readLE]

theorem readLE_writeBytes_toBytesLE (d : List Nat) (off w v : Nat)
    (hv : v < 2 ^ (8 * w)) (h : off + w ≤ d.length) :
    readLE (writeBytes d off (toBytesLE w v)) off w = v := by
  have h2 : readBytes (writeBytes d off (toBytesLE w v)) off (toBytesLE w v).length
      = toBytesLE w v :=
    readBytes_writeBytes _ _ _ (by rw [length_toBytesLE]; exact h)
  rw [length_toBytesLE] at h2
  rw [readLE, h2, fromBytesLE_toBytesLE, Nat.mod_eq_of_lt hv]

theorem writeBytes_append (s1 s2 d : List Nat) (off : Nat) :
    writeBytes d off (s1 ++ s2)
      = writeBytes (writeBytes d off s1) (off + s1.length) s2 := by
  induction s1 generalizing d off with
  | nil => rfl
  | cons b bs ih =>
    rw [List.cons_append, writeBytes, writeBytes, ih,
      show off + 1 + bs.length = off + (b :: bs).length by simp; omega]

/-! ## The model of `info.rs` -/

/-- Errors that can occur when creating a `FileProtocolInfo`
(`enum FileInfoCreationError` in the source: a buffer that is too small,
or a name code point that does not fit in UCS-2).  Note the enum has no
alignment variant: misalignment is handled by `assert_eq!`, not by a
returned error. -/
inductive FileInfoCreationError
  | insufficientStorage (size : Nat)
  | invalidChar (c : Char)
deriving DecidableEq

/-- Outcome of running a constructor on a buffer.

* `panicked` — the `assert_eq!` in `assert_aligned` failed: the process
  aborts; no value is returned.
* `error e d` — the constructor returned `Err e`; `d` is the buffer's byte
  contents at that point (the caller keeps the buffer).
* `ok d n` — the constructor returned `Ok`; `d` is the buffer's byte
  contents and `n` the tail length in `Char16`s of the fat reference
  (`name_length_ucs2` passed to `ptr_to_dst`). -/
inductive BuildResult
  | panicked
  | error (e : FileInfoCreationError) (data : List Nat)
  | ok (data : List Nat) (tailLen : Nat)
deriving DecidableEq

def isOk : BuildResult → Bool
  | .ok _ _ => true
  | _ => false

def okData : BuildResult → Option (List Nat)
  | .ok d _ => some d
  | _ => none

def okTailLen : BuildResult → Option Nat
  | .ok _ n => some n
  | _ => none

def errValue : BuildResult → Option FileInfoCreationError
  | .error e _ => some e
  | _ => none

/-- Static layout data of a record type, as computed by the trait's
`alignment()` and `name_offset()` methods: byte offset of the trailing
`[Char16]` name field, and the natural alignment of the type. -/
structure Layout where
  nameOffset : Nat
  align : Nat
deriving DecidableEq

/-- Modelled from the spec: the fixed-width character type (`Char16`) is an
external codec; its `TryFrom<char>` conversion succeeds exactly when the
character's code point is representable in the 16-bit encoding
(code point ≤ 0xFFFF), and yields that code unit. -/
def char16TryFrom (c : Char) : Option Nat :=
  if c.toNat ≤ 0xFFFF then some c.toNat else none

/-- Little-endian byte image of a list of UCS-2 code units (the bytes of a
`[Char16]` slice). -/
def ucs2Bytes : List Nat → List Nat
  | [] => []
  | u :: us => toBytesLE 2 u ++ ucs2Bytes us

theorem length_ucs2Bytes (us : List Nat) : (ucs2Bytes us).length = 2 * us.length := by
  induction us with
  | nil => rfl
  | cons u us ih => simp [ucs2Bytes, ih, length_toBytesLE]; omega

/-- Result of the name-copying loop: either every character was transcoded
and written, or the loop stopped at the first unrepresentable character
(`d` is the buffer after the writes performed so far). -/
inductive WriteNameResult
  | err (e : FileInfoCreationError) (data : List Nat)
  | ok (data : List Nat)
deriving DecidableEq

/-- The `for (target, ch) in info.name_mut().iter_mut().zip(name.chars())`
loop of `new_uninitialized`: each character is converted with
`ch.try_into()` and stored into the next `Char16` slot (2 bytes,
little-endian); on the first conversion failure the loop exits with
`FileInfoCreationError::InvalidChar(ch)`. -/
def writeNameLoop : List Nat → Nat → List Char → WriteNameResult
  | d, _, [] => .ok d
  | d, off, c :: cs =>
    match char16TryFrom c with
    | some u => writeNameLoop (writeBytes d off (toBytesLE 2 u)) (off + 2) cs
    | none => .err (.invalidChar c) d

/-- `info_size` as computed in `new_uninitialized`:
`Self::name_offset() + (name.chars().count() + 1) * mem::size_of::<Char16>()`. -/
def infoSize (L : Layout) (charCount : Nat) : Nat := L.nameOffset + (charCount + 1) * 2

/-- The value the typed constructors store in their `size` field:
`mem::size_of_val(&info)`.  `info` already has type `&mut Self`, so
`&info` has type `&&mut Self` and `size_of_val::<T>` instantiates at
`T = &mut Self` (no deref coercion is inserted for a generic argument):
it returns the size of the fat reference itself — a data pointer plus a
tail-length word, `8 + 8 = 16` bytes on the 64-bit targets — not the
size of the record it points to.  The stored size is therefore the
constant 16, for every record type and every name. -/
def size_of_val_ref : Nat := 16

/-- `FileProtocolInfo::new_uninitialized` over the byte-level buffer model.
Mirrors the source step for step:

1. `Self::assert_aligned(storage)` — `assert_eq!(addr % alignment, 0)`;
   failure is a panic (`.panicked`), not a returned error;
2. size check: `if storage.len() < info_size` return
   `Err(InsufficientStorage(info_size))`;
3. `ptr_to_dst` builds the fat reference with tail length
   `name_length_ucs2` (no bytes are written by this);
4. the transcoding loop writes the name into the tail
   (see `writeNameLoop`), propagating `InvalidChar`;
5. `info.name_mut()[name_length_ucs2 - 1] = NUL_16` writes the 16-bit null
   terminator into the last tail slot (byte offset `nameOffset + 2*n`). -/
def FileProtocolInfo.new_uninit (L : Layout) (addr : Nat) (storage : List Nat)
    (name : List Char) : BuildResult :=
  if addr % L.align ≠ 0 then .panicked
  else
    let name_length_ucs2 := name.length + 1
    let name_size := name_length_ucs2 * 2
    let info_size := L.nameOffset + name_size
    if storage.length < info_size then .error (.insufficientStorage info_size) storage
    else
      match writeNameLoop storage L.nameOffset name with
      | .err e d => .error e d
      | .ok d =>
        .ok (writeBytes d (L.nameOffset + 2 * name.length) (toBytesLE 2 0)) name_length_ucs2

/-- Modelled from the spec: `name_str` wraps the tail in a `CStr16`
(`CStr16::from_ptr(&self.name()[0])`, an external codec type): the code
units from the start of the name field up to, not including, the first
16-bit null.  The fuel argument (one slot per byte of the buffer, always
enough for a terminated tail) only makes the scan structurally
terminating. -/
def scanNul : List Nat → Nat → Nat → List Nat
  | _, _, 0 => []
  | d, off, fuel + 1 =>
    if readLE d off 2 = 0 then [] else readLE d off 2 :: scanNul d (off + 2) fuel

/-- `name_str` of a record living in buffer contents `data` with layout
`L`: the UCS-2 code units of the name, up to the null terminator. -/
def FileProtocolInfo.name_str (L : Layout) (data : List Nat) : List Nat :=
  scanNul data L.nameOffset data.length

/-- `FileProtocolInfo::from_uefi`: reinterpret a raw buffer as a record.
Scans for the null terminator starting at `name_offset()`
(`CStr16::from_ptr(name_ptr)`), then builds the fat reference with tail
length `name.to_u16_slice_with_nul().len()` (code units up to the null,
plus one for the null itself).  The view is the same memory plus that tail
length. -/
def FileProtocolInfo.from_uefi (L : Layout) (data : List Nat) : List Nat × Nat :=
  (data, (scanNul data L.nameOffset data.length).length + 1)

/-! ### Concrete record layouts

Offsets follow Rust `repr(C)`: fields at declaration order, each at the
next multiple of its alignment; primitives are `u64` (8 bytes, align 8),
`u32` (4, align 4), `bool` (1, align 1), `Char16` (2, align 2).

`FileSystemInfo { size: u64, read_only: bool, volume_size: u64,
free_space: u64, block_size: u32, name: [Char16] }`:
`size`@0–8, `read_only`@8–9, padding 9–16, `volume_size`@16–24,
`free_space`@24–32, `block_size`@32–36, `name`@36; alignment 8.

`FileSystemVolumeLabel { name: [Char16] }`: `name`@0; alignment 2.

`FileInfo { size: u64, file_size: u64, physical_size: u64, create_time:
Time, last_access_time: Time, modification_time: Time, attribute:
FileAttribute, name: [Char16] }` is parameterized by `ts`, the byte size
of the external `Time` type (a `repr(C)` struct of scalar fields, so its
alignment divides both 24 and its own size, making consecutive `Time`
fields contiguous, and its alignment is at most 8): `size`@0–8,
`file_size`@8–16, `physical_size`@16–24, the three times at 24, 24+ts,
24+2ts, `attribute` (a `u64` bitset) at `alignUp (24+3ts) 8`, `name` 8
bytes later; alignment 8 (the struct contains `u64` fields). -/

def FileSystemInfo.layout : Layout := ⟨36, 8⟩

def FileSystemVolumeLabel.layout : Layout := ⟨0, 2⟩

def FileInfo.attrOffset (ts : Nat) : Nat := alignUp (24 + 3 * ts) 8

def FileInfo.layout (ts : Nat) : Layout := ⟨FileInfo.attrOffset ts + 8, 8⟩

/-- `FileInfo::new`: `new_uninitialized`, then fill every header field.
The `size` field is written as `mem::size_of_val(&info) as u64`; since
`info` is a `&mut Self`, that is the size of the fat reference
(`size_of_val_ref` = 16), not a caller value and not the record's
footprint.  The three timestamps are modelled by their byte images
(`List Nat` of length `ts`), the attribute bitset by its `u64` value. -/
def FileInfo.new (ts : Nat) (addr : Nat) (storage : List Nat)
    (file_size physical_size : Nat)
    (create_time last_access_time modification_time : List Nat)
    (attr : Nat) (file_name : List Char) : BuildResult :=
  match FileProtocolInfo.new_uninit (FileInfo.layout ts) addr storage file_name with
  | .ok d n =>
    let d := writeBytes d 0 (toBytesLE 8 size_of_val_ref)
    let d := writeBytes d 8 (toBytesLE 8 file_size)
    let d := writeBytes d 16 (toBytesLE 8 physical_size)
    let d := writeBytes d 24 create_time
    let d := writeBytes d (24 + ts) last_access_time
    let d := writeBytes d (24 + 2 * ts) modification_time
    let d := writeBytes d (FileInfo.attrOffset ts) (toBytesLE 8 attr)
    .ok d n
  | r => r

/-- `FileSystemInfo::new`: `new_uninitialized`, then fill the header:
`size` with `mem::size_of_val(&info)` — the fat-reference size
`size_of_val_ref` = 16, as `info` is a `&mut Self` — then `read_only`
(a `bool`, one byte, 1 or 0), `volume_size`, `free_space`,
`block_size`. -/
def FileSystemInfo.new (addr : Nat) (storage : List Nat) (read_only : Bool)
    (volume_size free_space block_size : Nat) (volume_label : List Char) : BuildResult :=
  match FileProtocolInfo.new_uninit FileSystemInfo.layout addr storage volume_label with
  | .ok d n =>
    let d := writeBytes d 0 (toBytesLE 8 size_of_val_ref)
    let d := writeBytes d 8 [if read_only then 1 else 0]
    let d := writeBytes d 16 (toBytesLE 8 volume_size)
    let d := writeBytes d 24 (toBytesLE 8 free_space)
    let d := writeBytes d 32 (toBytesLE 4 block_size)
    .ok d n
  | r => r

/-- `FileSystemVolumeLabel::new`: the struct has no fixed header fields, so
the constructor is exactly `new_uninitialized`. -/
def FileSystemVolumeLabel.new (addr : Nat) (storage : List Nat)
    (volume_label : List Char) : BuildResult :=
  FileProtocolInfo.new_uninit FileSystemVolumeLabel.layout addr storage volume_label

/-! ### Inversion lemmas for the builder -/

theorem writeNameLoop_ok_inv (cs : List Char) (d dd : List Nat) (off : Nat)
    (h : writeNameLoop d off cs = .ok dd) :
    (∀ c ∈ cs, c.toNat ≤ 0xFFFF) ∧ dd = writeBytes d off (ucs2Bytes (cs.map Char.toNat)) := by
  induction cs generalizing d off with
  | nil =>
    refine ⟨by simp, ?_⟩
    simpa [writeNameLoop] using h.symm
  | cons c cs ih =>
    by_cases hc : c.toNat ≤ 0xFFFF
    · rw [writeNameLoop, char16TryFrom, if_pos hc] at h
      obtain ⟨hval, heq⟩ := ih _ _ h
      refine ⟨by simpa [hc] using hval, ?_⟩
      rw [heq, List.map_cons, ucs2Bytes, writeBytes_append, length_toBytesLE]
    · rw [writeNameLoop, char16TryFrom, if_neg hc] at h
      exact absurd h (by simp)

theorem writeNameLoop_ok (cs : List Char) (d : List Nat) (off : Nat)
    (h : ∀ c ∈ cs, c.toNat ≤ 0xFFFF) :
    writeNameLoop d off cs = .ok (writeBytes d off (ucs2Bytes (cs.map Char.toNat))) := by
  induction cs generalizing d off with
  | nil => rfl
  | cons c cs ih =>
    have hc : c.toNat ≤ 0xFFFF := h c (by simp)
    rw [writeNameLoop, char16TryFrom, if_pos hc, List.map_cons, ucs2Bytes,
      writeBytes_append, length_toBytesLE]
    exact ih _ _ (fun x hx => h x (by simp [hx]))

theorem writeNameLoop_err_inv (cs : List Char) (d dd : List Nat) (off : Nat)
    (e : FileInfoCreationError) (h : writeNameLoop d off cs = .err e dd) :
    ∃ c, e = .invalidChar c := by
  induction cs generalizing d off with
  | nil => exact absurd h (by simp [writeNameLoop])
  | cons c cs ih =>
    by_cases hc : c.toNat ≤ 0xFFFF
    · rw [writeNameLoop, char16TryFrom, if_pos hc] at h
      exact ih _ _ h
    · rw [writeNameLoop, char16TryFrom, if_neg hc] at h
      exact ⟨c, by simpa using (WriteNameResult.err.injEq _ _ _ _).mp h.symm |>.1⟩

theorem writeNameLoop_err_first (cs : List Char) (d : List Nat) (off : Nat) (c₀ : Char)
    (h : cs.find? (fun c => decide (0xFFFF < c.toNat)) = some c₀) :
    writeNameLoop d off cs =
      .err (.invalidChar c₀)
        (writeBytes d off
          (ucs2Bytes ((cs.takeWhile fun c => decide (c.toNat ≤ 0xFFFF)).map Char.toNat))) := by
  induction cs generalizing d off with
  | nil => simp at h
  | cons c cs ih =>
    by_cases hc : c.toNat ≤ 0xFFFF
    · rw [List.find?_cons_of_neg _ (by simpa using hc)] at h
      rw [writeNameLoop, char16TryFrom, if_pos hc,
        List.takeWhile_cons_of_pos (by simpa using hc), List.map_cons, ucs2Bytes,
        writeBytes_append, length_toBytesLE]
      exact ih _ _ h
    · rw [List.find?_cons_of_pos _ (by simpa using Nat.lt_of_not_le hc)] at h
      obtain rfl : c = c₀ := by simpa using h
      rw [writeNameLoop, char16TryFrom, if_neg hc,
        List.takeWhile_cons_of_neg (by simpa using hc)]
      rfl

/-- Full inversion of a successful `new_uninitialized`: the buffer was
aligned and large enough, every name character fit UCS-2, the returned
tail length is `char_count + 1`, and the final buffer is the original one
with the transcoded name plus the 16-bit null written at the name
offset. -/
theorem new_uninit_ok_inv (L : Layout) (addr : Nat) (storage : List Nat)
    (name : List Char) (d : List Nat) (n : Nat)
    (h : FileProtocolInfo.new_uninit L addr storage name = .ok d n) :
    addr % L.align = 0 ∧ n = name.length + 1 ∧
      infoSize L name.length ≤ storage.length ∧
      (∀ c ∈ name, c.toNat ≤ 0xFFFF) ∧
      d = writeBytes storage L.nameOffset
            (ucs2Bytes (name.map Char.toNat) ++ toBytesLE 2 0) := by
  rw [FileProtocolInfo.new_uninit] at h
  by_cases halign : addr % L.align = 0
  · rw [if_neg (by simpa using halign)] at h
    simp only at h
    by_cases hlen : storage.length < L.nameOffset + (name.length + 1) * 2
    · rw [if_pos hlen] at h
      exact absurd h (by simp)
    · rw [if_neg hlen] at h
      cases hwn : writeNameLoop storage L.nameOffset name with
      | err e dd => rw [hwn] at h; exact absurd h (by simp)
      | ok dd =>
        rw [hwn] at h
        obtain ⟨hval, rfl⟩ := writeNameLoop_ok_inv _ _ _ _ hwn
        obtain ⟨rfl, rfl⟩ : _ ∧ _ := by simpa using h
        refine ⟨halign, rfl, by rw [infoSize]; omega, hval, ?_⟩
        rw [writeBytes_append, length_ucs2Bytes, List.length_map]
  · rw [if_pos (by simpa using halign)] at h
    exact absurd h (by simp)

/-- Converse: an aligned, large-enough buffer and a UCS-2-representable
name make `new_uninitialized` succeed, with the stated final buffer. -/
theorem new_uninit_ok_of (L : Layout) (addr : Nat) (storage : List Nat)
    (name : List Char) (halign : addr % L.align = 0)
    (hlen : infoSize L name.length ≤ storage.length)
    (hval : ∀ c ∈ name, c.toNat ≤ 0xFFFF) :
    FileProtocolInfo.new_uninit L addr storage name =
      .ok (writeBytes storage L.nameOffset
            (ucs2Bytes (name.map Char.toNat) ++ toBytesLE 2 0))
          (name.length + 1) := by
  rw [FileProtocolInfo.new_uninit, if_neg (by simpa using halign)]
  simp only
  rw [if_neg (by rw [infoSize] at hlen; omega), writeNameLoop_ok _ _ _ hval,
    writeBytes_append, length_ucs2Bytes, List.length_map]

theorem new_uninit_ok_length (L : Layout) (addr : Nat) (storage : List Nat)
    (name : List Char) (d : List Nat) (n : Nat)
    (h : FileProtocolInfo.new_uninit L addr storage name = .ok d n) :
    d.length = storage.length := by
  obtain ⟨-, -, -, -, rfl⟩ := new_uninit_ok_inv _ _ _ _ _ _ h
  exact length_writeBytes _ _ _

/-! ### Reading the tail back -/

theorem scanNul_writeBytes_low (src d : List Nat) (off' off fuel : Nat)
    (h : off' + src.length ≤ off) :
    scanNul (writeBytes d off' src) off fuel = scanNul d off fuel := by
  induction fuel generalizing off with
  | zero => rfl
  | succ fuel ih =>
    rw [scanNul, scanNul, readLE_writeBytes_high src d off' off 2 h,
      ih (off + 2) (by omega)]

/-- Scanning a tail that was just written: the name's code units appear
back, truncated at the first embedded 16-bit null (if none is embedded,
that is the whole name). -/
theorem scanNul_write_units (us : List Nat) (d : List Nat) (off fuel : Nat)
    (hu : ∀ u ∈ us, u < 65536)
    (hle : off + 2 * us.length + 2 ≤ d.length) (hf : us.length < fuel) :
    scanNul (writeBytes d off (ucs2Bytes us ++ toBytesLE 2 0)) off fuel
      = us.takeWhile (fun u => decide (u ≠ 0)) := by
  induction us generalizing d off fuel with
  | nil =>
    cases fuel with
    | zero => omega
    | succ fuel =>
      rw [show ucs2Bytes [] ++ toBytesLE 2 0 = toBytesLE 2 0 from rfl, scanNul,
        if_pos (readLE_writeBytes_toBytesLE d off 2 0 (by norm_num) (by simp at hle; omega))]
      rfl
  | cons u us ih =>
    cases fuel with
    | zero => omega
    | succ fuel =>
      have hle' : off + 2 * us.length + 4 ≤ d.length := by
        simp only [List.length_cons] at hle; omega
      have hf' : us.length < fuel := by
        simp only [List.length_cons] at hf; omega
      have hsplit : ucs2Bytes (u :: us) ++ toBytesLE 2 0
          = toBytesLE 2 u ++ (ucs2Bytes us ++ toBytesLE 2 0) := by
        rw [ucs2Bytes, List.append_assoc]
      rw [hsplit, writeBytes_append, length_toBytesLE]
      have hu0 : u < 65536 := hu u (by simp)
      have hread : readLE (writeBytes (writeBytes d off (toBytesLE 2 u)) (off + 2)
          (ucs2Bytes us ++ toBytesLE 2 0)) off 2 = u := by
        rw [readLE_writeBytes_low _ _ _ _ _ (by omega),
          readLE_writeBytes_toBytesLE d off 2 u (by norm_num; omega) (by omega)]
      by_cases hz : u = 0
      · rw [scanNul, if_pos (by rw [hread, hz]),
          List.takeWhile_cons_of_neg (by simp [hz])]
      · rw [scanNul, if_neg (by rw [hread]; exact hz), hread,
          List.takeWhile_cons_of_pos (by simpa using hz),
          ih _ _ _ (fun x hx => hu x (by simp [hx]))
            (by rw [length_writeBytes]; omega) hf']

/-- `name_str` of the record produced by a successful `new_uninitialized`:
the transcoded name truncated at its first embedded null character. -/
theorem name_str_new_uninit (L : Layout) (addr : Nat) (storage : List Nat)
    (name : List Char) (d : List Nat) (n : Nat)
    (h : FileProtocolInfo.new_uninit L addr storage name = .ok d n) :
    FileProtocolInfo.name_str L d
      = (name.map Char.toNat).takeWhile (fun u => decide (u ≠ 0)) := by
  obtain ⟨-, -, hlen, hval, rfl⟩ := new_uninit_ok_inv _ _ _ _ _ _ h
  rw [infoSize] at hlen
  rw [FileProtocolInfo.name_str, length_writeBytes]
  exact scanNul_write_units _ _ _ _
    (by intro u hu; obtain ⟨c, hc, rfl⟩ := List.mem_map.mp hu
        have := hval c hc; omega)
    (by simp; omega) (by simp; omega)

theorem takeWhile_eq_self_of_nonzero (us : List Nat) (h : ∀ u ∈ us, u ≠ 0) :
    us.takeWhile (fun u => decide (u ≠ 0)) = us := by
  induction us with
  | nil => rfl
  | cons u us ih =>
    rw [List.takeWhile_cons_of_pos (by simpa using h u (by simp)),
      ih (fun x hx => h x (by simp [hx]))]

/-! ### Reading back the typed constructors' headers -/

theorem readLE_writeBytes_one (d : List Nat) (off x : Nat) (h : off + 1 ≤ d.length) :
    readLE (writeBytes d off [x]) off 1 = x := by
  have h2 := readBytes_writeBytes [x] d off (by simpa using h)
  simp only [List.length_singleton] at h2
  rw [readLE, h2]
  simp [fromBytesLE]

theorem fileSystemInfo_new_ok_inv (addr : Nat) (storage : List Nat) (ro : Bool)
    (vs fs bs : Nat) (label : List Char) (d : List Nat) (n : Nat)
    (h : FileSystemInfo.new addr storage ro vs fs bs label = .ok d n) :
    ∃ d₀, FileProtocolInfo.new_uninit FileSystemInfo.layout addr storage label = .ok d₀ n ∧
      d = writeBytes (writeBytes (writeBytes (writeBytes (writeBytes d₀ 0
            (toBytesLE 8 size_of_val_ref))
            8 [if ro then 1 else 0]) 16 (toBytesLE 8 vs)) 24 (toBytesLE 8 fs))
            32 (toBytesLE 4 bs) := by
  rw [FileSystemInfo.new] at h
  cases h0 : FileProtocolInfo.new_uninit FileSystemInfo.layout addr storage label with
  | panicked => rw [h0] at h; exact absurd h (by simp)
  | error e dd => rw [h0] at h; exact absurd h (by simp)
  | ok d₀ n₀ =>
    rw [h0] at h
    simp only [BuildResult.ok.injEq] at h
    obtain ⟨rfl, rfl⟩ := h
    exact ⟨d₀, rfl, rfl⟩

/-- All header fields and the name of a successfully constructed
`FileSystemInfo`, read back from the final buffer bytes. -/
theorem fileSystemInfo_new_ok_reads (addr : Nat) (storage : List Nat) (ro : Bool)
    (vs fs bs : Nat) (label : List Char) (d : List Nat) (n : Nat)
    (h : FileSystemInfo.new addr storage ro vs fs bs label = .ok d n)
    (hvs : vs < 2 ^ 64) (hfs : fs < 2 ^ 64) (hbs : bs < 2 ^ 32) :
    readLE d 0 8 = size_of_val_ref ∧
    readLE d 8 1 = (if ro then 1 else 0) ∧
    readLE d 16 8 = vs ∧ readLE d 24 8 = fs ∧ readLE d 32 4 = bs ∧
    FileProtocolInfo.name_str FileSystemInfo.layout d
      = (label.map Char.toNat).takeWhile (fun u => decide (u ≠ 0)) ∧
    n = label.length + 1 ∧ d.length = storage.length := by
  obtain ⟨d₀, h0, hd⟩ := fileSystemInfo_new_ok_inv _ _ _ _ _ _ _ _ _ h
  obtain ⟨-, hn, hlen, -, -⟩ := new_uninit_ok_inv _ _ _ _ _ _ h0
  have hoff : FileSystemInfo.layout.nameOffset = 36 := rfl
  rw [infoSize, hoff] at hlen
  have hd0 := new_uninit_ok_length _ _ _ _ _ _ h0
  have hL : 36 + 2 * label.length + 2 ≤ d₀.length := by omega
  have hdl : d.length = d₀.length := by rw [hd]; simp [length_writeBytes]
  refine ⟨?_, ?_, ?_, ?_, ?_, ?_, hn, by omega⟩
  · rw [hd, readLE_writeBytes_low (toBytesLE 4 bs) _ 32 0 8 (by norm_num),
      readLE_writeBytes_low (toBytesLE 8 fs) _ 24 0 8 (by norm_num),
      readLE_writeBytes_low (toBytesLE 8 vs) _ 16 0 8 (by norm_num),
      readLE_writeBytes_low [if ro then 1 else 0] _ 8 0 8 (by norm_num),
      readLE_writeBytes_toBytesLE d₀ 0 8 _ (by decide) (by omega)]
  · rw [hd, readLE_writeBytes_low (toBytesLE 4 bs) _ 32 8 1 (by norm_num),
      readLE_writeBytes_low (toBytesLE 8 fs) _ 24 8 1 (by norm_num),
      readLE_writeBytes_low (toBytesLE 8 vs) _ 16 8 1 (by norm_num),
      readLE_writeBytes_one _ 8 _ (by rw [length_writeBytes]; omega)]
  · rw [hd, readLE_writeBytes_low (toBytesLE 4 bs) _ 32 16 8 (by norm_num),
      readLE_writeBytes_low (toBytesLE 8 fs) _ 24 16 8 (by norm_num),
      readLE_writeBytes_toBytesLE _ 16 8 _ hvs (by simp [length_writeBytes]; omega)]
  · rw [hd, readLE_writeBytes_low (toBytesLE 4 bs) _ 32 24 8 (by norm_num),
      readLE_writeBytes_toBytesLE _ 24 8 _ hfs (by simp [length_writeBytes]; omega)]
  · rw [hd, readLE_writeBytes_toBytesLE _ 32 4 _ hbs (by simp [length_writeBytes]; omega)]
  · rw [FileProtocolInfo.name_str, hdl, hoff, hd,
      scanNul_writeBytes_low (toBytesLE 4 bs) _ 32 36 _ (by rw [length_toBytesLE]),
      scanNul_writeBytes_low (toBytesLE 8 fs) _ 24 36 _ (by rw [length_toBytesLE]; norm_num),
      scanNul_writeBytes_low (toBytesLE 8 vs) _ 16 36 _ (by rw [length_toBytesLE]; norm_num),
      scanNul_writeBytes_low [if ro then 1 else 0] _ 8 36 _ (by norm_num),
      scanNul_writeBytes_low (toBytesLE 8 _) _ 0 36 _ (by rw [length_toBytesLE]; norm_num),
      show scanNul d₀ 36 d₀.length
          = FileProtocolInfo.name_str FileSystemInfo.layout d₀ from rfl,
      name_str_new_uninit _ _ _ _ _ _ h0]

theorem readBytes_writeBytes_of_length (src d : List Nat) (off w : Nat)
    (hw : src.length = w) (h : off + src.length ≤ d.length) :
    readBytes (writeBytes d off src) off w = src := by
  subst hw
  exact readBytes_writeBytes src d off h

theorem fileInfo_new_ok_inv (ts addr : Nat) (storage : List Nat)
    (file_size physical_size : Nat) (ct lat mt : List Nat) (attr : Nat)
    (file_name : List Char) (d : List Nat) (n : Nat)
    (h : FileInfo.new ts addr storage file_size physical_size ct lat mt attr file_name
      = .ok d n) :
    ∃ d₀, FileProtocolInfo.new_uninit (FileInfo.layout ts) addr storage file_name
        = .ok d₀ n ∧
      d = writeBytes (writeBytes (writeBytes (writeBytes (writeBytes (writeBytes
            (writeBytes d₀ 0 (toBytesLE 8 size_of_val_ref))
            8 (toBytesLE 8 file_size)) 16 (toBytesLE 8 physical_size)) 24 ct)
            (24 + ts) lat) (24 + 2 * ts) mt) (FileInfo.attrOffset ts) (toBytesLE 8 attr) := by
  rw [FileInfo.new] at h
  cases h0 : FileProtocolInfo.new_uninit (FileInfo.layout ts) addr storage file_name with
  | panicked => rw [h0] at h; exact absurd h (by simp)
  | error e dd => rw [h0] at h; exact absurd h (by simp)
  | ok d₀ n₀ =>
    rw [h0] at h
    simp only [BuildResult.ok.injEq] at h
    obtain ⟨rfl, rfl⟩ := h
    exact ⟨d₀, rfl, rfl⟩

/-- All header fields and the name of a successfully constructed
`FileInfo`, read back from the final buffer bytes (`ts` is the byte size of
the external `Time` type, whose values are modelled by their byte
images). -/
theorem fileInfo_new_ok_reads (ts addr : Nat) (storage : List Nat)
    (file_size physical_size : Nat) (ct lat mt : List Nat) (attr : Nat)
    (file_name : List Char) (d : List Nat) (n : Nat)
    (h : FileInfo.new ts addr storage file_size physical_size ct lat mt attr file_name
      = .ok d n)
    (hct : ct.length = ts) (hlat : lat.length = ts) (hmt : mt.length = ts)
    (hfs : file_size < 2 ^ 64) (hps : physical_size < 2 ^ 64) (hattr : attr < 2 ^ 64) :
    readLE d 0 8 = size_of_val_ref ∧
    readLE d 8 8 = file_size ∧ readLE d 16 8 = physical_size ∧
    readBytes d 24 ts = ct ∧ readBytes d (24 + ts) ts = lat ∧
    readBytes d (24 + 2 * ts) ts = mt ∧
    readLE d (FileInfo.attrOffset ts) 8 = attr ∧
    FileProtocolInfo.name_str (FileInfo.layout ts) d
      = (file_name.map Char.toNat).takeWhile (fun u => decide (u ≠ 0)) ∧
    n = file_name.length + 1 ∧ d.length = storage.length := by
  obtain ⟨d₀, h0, hd⟩ := fileInfo_new_ok_inv _ _ _ _ _ _ _ _ _ _ _ _ h
  obtain ⟨-, hn, hlen, -, -⟩ := new_uninit_ok_inv _ _ _ _ _ _ h0
  have hao : 24 + 3 * ts ≤ FileInfo.attrOffset ts := le_alignUp _ 8 (by norm_num)
  have hoff : (FileInfo.layout ts).nameOffset = FileInfo.attrOffset ts + 8 := rfl
  rw [infoSize, hoff] at hlen
  have hd0 := new_uninit_ok_length _ _ _ _ _ _ h0
  have hL : FileInfo.attrOffset ts + 8 + 2 * file_name.length + 2 ≤ d₀.length := by omega
  have hdl : d.length = d₀.length := by rw [hd]; simp [length_writeBytes]
  refine ⟨?_, ?_, ?_, ?_, ?_, ?_, ?_, ?_, hn, by omega⟩
  · rw [hd, readLE_writeBytes_low (toBytesLE 8 attr) _ (FileInfo.attrOffset ts) 0 8 (by omega),
      readLE_writeBytes_low mt _ (24 + 2 * ts) 0 8 (by omega),
      readLE_writeBytes_low lat _ (24 + ts) 0 8 (by omega),
      readLE_writeBytes_low ct _ 24 0 8 (by omega),
      readLE_writeBytes_low (toBytesLE 8 physical_size) _ 16 0 8 (by norm_num),
      readLE_writeBytes_low (toBytesLE 8 file_size) _ 8 0 8 (by norm_num),
      readLE_writeBytes_toBytesLE d₀ 0 8 _ (by decide) (by omega)]
  · rw [hd, readLE_writeBytes_low (toBytesLE 8 attr) _ (FileInfo.attrOffset ts) 8 8 (by omega),
      readLE_writeBytes_low mt _ (24 + 2 * ts) 8 8 (by omega),
      readLE_writeBytes_low lat _ (24 + ts) 8 8 (by omega),
      readLE_writeBytes_low ct _ 24 8 8 (by norm_num),
      readLE_writeBytes_low (toBytesLE 8 physical_size) _ 16 8 8 (by norm_num),
      readLE_writeBytes_toBytesLE _ 8 8 _ hfs (by rw [length_writeBytes]; omega)]
  · rw [hd, readLE_writeBytes_low (toBytesLE 8 attr) _ (FileInfo.attrOffset ts) 16 8 (by omega),
      readLE_writeBytes_low mt _ (24 + 2 * ts) 16 8 (by omega),
      readLE_writeBytes_low lat _ (24 + ts) 16 8 (by omega),
      readLE_writeBytes_low ct _ 24 16 8 (by norm_num),
      readLE_writeBytes_toBytesLE _ 16 8 _ hps (by simp [length_writeBytes]; omega)]
  · rw [hd,
      readBytes_writeBytes_low (toBytesLE 8 attr) _ (FileInfo.attrOffset ts) 24 ts (by omega),
      readBytes_writeBytes_low mt _ (24 + 2 * ts) 24 ts (by omega),
      readBytes_writeBytes_low lat _ (24 + ts) 24 ts (by omega),
      readBytes_writeBytes_of_length ct _ 24 ts hct (by simp [length_writeBytes]; omega)]
  · rw [hd,
      readBytes_writeBytes_low (toBytesLE 8 attr) _ (FileInfo.attrOffset ts) (24 + ts) ts
        (by omega),
      readBytes_writeBytes_low mt _ (24 + 2 * ts) (24 + ts) ts (by omega),
      readBytes_writeBytes_of_length lat _ (24 + ts) ts hlat
        (by simp [length_writeBytes]; omega)]
  · rw [hd,
      readBytes_writeBytes_low (toBytesLE 8 attr) _ (FileInfo.attrOffset ts) (24 + 2 * ts) ts
        (by omega),
      readBytes_writeBytes_of_length mt _ (24 + 2 * ts) ts hmt
        (by simp [length_writeBytes]; omega)]
  · rw [hd, readLE_writeBytes_toBytesLE _ (FileInfo.attrOffset ts) 8 _ hattr
      (by simp [length_writeBytes]; omega)]
  · rw [FileProtocolInfo.name_str, hdl, hoff, hd,
      scanNul_writeBytes_low (toBytesLE 8 attr) _ (FileInfo.attrOffset ts) _ _
        (by rw [length_toBytesLE]),
      scanNul_writeBytes_low mt _ (24 + 2 * ts) _ _ (by omega),
      scanNul_writeBytes_low lat _ (24 + ts) _ _ (by omega),
      scanNul_writeBytes_low ct _ 24 _ _ (by omega),
      scanNul_writeBytes_low (toBytesLE 8 physical_size) _ 16 _ _
        (by rw [length_toBytesLE]; omega),
      scanNul_writeBytes_low (toBytesLE 8 file_size) _ 8 _ _
        (by rw [length_toBytesLE]; omega),
      scanNul_writeBytes_low (toBytesLE 8 _) _ 0 _ _ (by rw [length_toBytesLE]; omega),
      show scanNul d₀ (FileInfo.attrOffset ts + 8) d₀.length
          = FileProtocolInfo.name_str (FileInfo.layout ts) d₀ from rfl,
      name_str_new_uninit _ _ _ _ _ _ h0]

/-! ## Claims -/

/-- Claim C2, counterexample: constructing on a buffer whose start address
(1) is not a multiple of the required alignment (2, for
`FileSystemVolumeLabel`) does not return an `Alignment` error in the
result type — no such variant exists — but hits the `assert_eq!` in
`assert_aligned`, aborting the process (`.panicked`); in particular no
error value is returned at all. -/
theorem claim_C2_counterexample :
    FileProtocolInfo.new_uninit FileSystemVolumeLabel.layout 1 (List.replicate 8 0) []
        = .panicked ∧
      errValue (FileProtocolInfo.new_uninit FileSystemVolumeLabel.layout 1
        (List.replicate 8 0) []) = none := by
  constructor <;> decide

/-- Claim C2 (amended): a misaligned buffer makes `new_uninitialized`
panic via the alignment assertion (the process aborts, no error value is
returned), and this is the only way it aborts: for every aligned buffer
the outcome is a returned `Ok` or `Err`, never a panic. -/
theorem claim_C2_amended (L : Layout) (addr : Nat) (storage : List Nat) (name : List Char) :
    FileProtocolInfo.new_uninit L addr storage name = .panicked ↔ addr % L.align ≠ 0 := by
  constructor
  · intro h
    by_cases halign : addr % L.align ≠ 0
    · exact halign
    · exfalso
      rw [FileProtocolInfo.new_uninit, if_neg halign] at h
      simp only at h
      by_cases hlen : storage.length < L.nameOffset + (name.length + 1) * 2
      · rw [if_pos hlen] at h
        exact absurd h (by simp)
      · rw [if_neg hlen] at h
        cases hwn : writeNameLoop storage L.nameOffset name with
        | err e dd => rw [hwn] at h; exact absurd h (by simp)
        | ok dd => rw [hwn] at h; exact absurd h (by simp)
  · intro h
    rw [FileProtocolInfo.new_uninit, if_pos h]

/-- Claim C3, counterexample: an aligned buffer of exactly the required
size (4 bytes for a one-character name in `FileSystemVolumeLabel`) does
not make construction succeed when the name contains a character outside
UCS-2 (`U+10000`): the claimed "succeeds iff `buffer.length ≥
required_size`" equivalence fails on this input. -/
theorem claim_C3_counterexample :
    infoSize FileSystemVolumeLabel.layout 1 ≤ (List.replicate 4 0).length ∧
      (0 : Nat) % FileSystemVolumeLabel.layout.align = 0 ∧
      isOk (FileProtocolInfo.new_uninit FileSystemVolumeLabel.layout 0
        (List.replicate 4 0) [Char.ofNat 65536]) = false := by
  refine ⟨by decide, by decide, by decide⟩

/-- Claim C3 (amended): for every record type and aligned buffer,
`required_size` equals `tail_offset() + (char_count + 1) * 2`, and
construction succeeds iff the buffer length is at least `required_size`
AND every character of the name is representable in UCS-2. -/
theorem claim_C3_amended (L : Layout) (addr : Nat) (storage : List Nat) (name : List Char)
    (halign : addr % L.align = 0) :
    infoSize L name.length = L.nameOffset + (name.length + 1) * 2 ∧
    (isOk (FileProtocolInfo.new_uninit L addr storage name) = true ↔
      infoSize L name.length ≤ storage.length ∧ ∀ c ∈ name, c.toNat ≤ 0xFFFF) := by
  refine ⟨rfl, ?_⟩
  constructor
  · intro hok
    cases hr : FileProtocolInfo.new_uninit L addr storage name with
    | panicked => rw [hr] at hok; simp [isOk] at hok
    | error e dd => rw [hr] at hok; simp [isOk] at hok
    | ok dd nn =>
      obtain ⟨-, -, hlen, hval, -⟩ := new_uninit_ok_inv _ _ _ _ _ _ hr
      exact ⟨hlen, hval⟩
  · rintro ⟨hlen, hval⟩
    rw [new_uninit_ok_of L addr storage name halign hlen hval]
    rfl

/-- Claim C3 (amended), witness at a concrete input: layout of
`FileSystemVolumeLabel`, aligned 6-byte buffer, two-character name. -/
theorem claim_C3_witness :
    ((0 : Nat) % FileSystemVolumeLabel.layout.align = 0) ∧
    (infoSize FileSystemVolumeLabel.layout 2
        = FileSystemVolumeLabel.layout.nameOffset + (2 + 1) * 2 ∧
      (isOk (FileProtocolInfo.new_uninit FileSystemVolumeLabel.layout 0
          (List.replicate 6 0) (['O', 'K'])) = true ↔
        infoSize FileSystemVolumeLabel.layout 2 ≤ (List.replicate 6 0).length ∧
          ∀ c ∈ (['O', 'K'] : List Char), c.toNat ≤ 0xFFFF)) :=
  ⟨by decide,
    claim_C3_amended FileSystemVolumeLabel.layout 0 (List.replicate 6 0) (['O', 'K'])
      (by decide)⟩

/-- Claim C4: on an aligned buffer strictly smaller than `required_size`
(for any name contents whatsoever), `new_uninitialized` fails with
`InsufficientStorage` carrying exactly `required_size`, the buffer left as
it was. -/
theorem claim_C4 (L : Layout) (addr : Nat) (storage : List Nat) (name : List Char)
    (halign : addr % L.align = 0)
    (hlen : storage.length < infoSize L name.length) :
    FileProtocolInfo.new_uninit L addr storage name
      = .error (.insufficientStorage (infoSize L name.length)) storage := by
  rw [FileProtocolInfo.new_uninit, if_neg (by simpa using halign)]
  simp only
  rw [if_pos (by rw [infoSize] at hlen; omega)]
  rfl

/-- Claim C4, witness: a buffer one byte short of the 8 bytes that the
label `"EFI"` requires (`FileSystemVolumeLabel`) fails with
`InsufficientStorage 8` — even though the name also contains a
non-UCS-2 character, showing the size check comes first. -/
theorem claim_C4_witness :
    ((0 : Nat) % FileSystemVolumeLabel.layout.align = 0) ∧
    (List.replicate 7 9).length < infoSize FileSystemVolumeLabel.layout 3 ∧
    FileProtocolInfo.new_uninit FileSystemVolumeLabel.layout 0 (List.replicate 7 9)
        (['E', 'F', Char.ofNat 65536])
      = .error (.insufficientStorage (infoSize FileSystemVolumeLabel.layout 3))
          (List.replicate 7 9) :=
  ⟨by decide, by decide,
    claim_C4 FileSystemVolumeLabel.layout 0 (List.replicate 7 9)
      (['E', 'F', Char.ofNat 65536]) (by decide) (by decide)⟩

/-- Claim C10: whenever `new_uninitialized` fails with
`InsufficientStorage`, the buffer contents it hands back are exactly the
caller's original bytes — the size check precedes every write. -/
theorem claim_C10 (L : Layout) (addr : Nat) (storage : List Nat) (name : List Char)
    (k : Nat) (dd : List Nat)
    (h : FileProtocolInfo.new_uninit L addr storage name
      = .error (.insufficientStorage k) dd) :
    dd = storage := by
  rw [FileProtocolInfo.new_uninit] at h
  by_cases halign : addr % L.align ≠ 0
  · rw [if_pos halign] at h
    exact absurd h (by simp)
  · rw [if_neg halign] at h
    simp only at h
    by_cases hlen : storage.length < L.nameOffset + (name.length + 1) * 2
    · rw [if_pos hlen] at h
      simp only [BuildResult.error.injEq] at h
      exact h.2.symm
    · rw [if_neg hlen] at h
      cases hwn : writeNameLoop storage L.nameOffset name with
      | err e dd' =>
        rw [hwn] at h
        obtain ⟨c, rfl⟩ := writeNameLoop_err_inv _ _ _ _ _ hwn
        exact absurd h (by simp)
      | ok dd' =>
        rw [hwn] at h
        exact absurd h (by simp)

/-- Claim C10, witness: a 3-byte buffer with recognizable contents
`[5, 6, 7]` is returned untouched by the failing construction. -/
theorem claim_C10_witness :
    FileProtocolInfo.new_uninit FileSystemVolumeLabel.layout 0 ([5, 6, 7]) (['b'])
        = .error (.insufficientStorage 4) ([5, 6, 7]) ∧
      ([5, 6, 7] : List Nat) = [5, 6, 7] :=
  ⟨by decide,
    claim_C10 FileSystemVolumeLabel.layout 0 ([5, 6, 7]) (['b']) 4 ([5, 6, 7]) (by decide)⟩

/-- Claim C7: on an aligned, large-enough buffer, a name whose first
non-UCS-2 character is `c₀` makes `new_uninitialized` fail with
`InvalidChar c₀` (the first offending character, as found by scanning the
name in order); the tail slots before the offending position have been
written with the transcoded prefix, and no `Ok` record results. -/
theorem claim_C7 (L : Layout) (addr : Nat) (storage : List Nat) (name : List Char)
    (halign : addr % L.align = 0) (hlen : infoSize L name.length ≤ storage.length)
    (c₀ : Char) (hfind : name.find? (fun c => decide (0xFFFF < c.toNat)) = some c₀) :
    FileProtocolInfo.new_uninit L addr storage name
      = .error (.invalidChar c₀)
          (writeBytes storage L.nameOffset
            (ucs2Bytes ((name.takeWhile fun c => decide (c.toNat ≤ 0xFFFF)).map
              Char.toNat))) := by
  rw [FileProtocolInfo.new_uninit, if_neg (by simpa using halign)]
  simp only
  rw [if_neg (by rw [infoSize] at hlen; omega),
    writeNameLoop_err_first name storage L.nameOffset c₀ hfind]

/-- Claim C7, witness: name `['a', U+10000, U+10001]` on an aligned 8-byte
buffer fails with `InvalidChar U+10000` (the first offending character),
with the transcoded prefix `'a'` already written. -/
theorem claim_C7_witness :
    ((0 : Nat) % FileSystemVolumeLabel.layout.align = 0) ∧
    infoSize FileSystemVolumeLabel.layout 3 ≤ (List.replicate 8 0).length ∧
    (['a', Char.ofNat 65536, Char.ofNat 65537].find?
        (fun c => decide (0xFFFF < c.toNat)) = some (Char.ofNat 65536)) ∧
    FileProtocolInfo.new_uninit FileSystemVolumeLabel.layout 0 (List.replicate 8 0)
        (['a', Char.ofNat 65536, Char.ofNat 65537])
      = .error (.invalidChar (Char.ofNat 65536))
          (writeBytes (List.replicate 8 0) FileSystemVolumeLabel.layout.nameOffset
            (ucs2Bytes (((['a', Char.ofNat 65536, Char.ofNat 65537]).takeWhile
              fun c => decide (c.toNat ≤ 0xFFFF)).map Char.toNat))) :=
  ⟨by decide, by decide, by decide,
    claim_C7 FileSystemVolumeLabel.layout 0 (List.replicate 8 0)
      (['a', Char.ofNat 65536, Char.ofNat 65537]) (by decide) (by decide)
      (Char.ofNat 65536) (by decide)⟩

/-- Claim C8: every record returned by a successful `new_uninitialized`
has the 16-bit null as its final tail element (the 2 bytes at
`name_offset + 2 * char_count`), its tail length (including the
terminator) is `char_count + 1`, and that length determines the record's
total size: `required_size = name_offset + (char_count + 1) * 2`. -/
theorem claim_C8 (L : Layout) (addr : Nat) (storage : List Nat) (name : List Char)
    (h : isOk (FileProtocolInfo.new_uninit L addr storage name) = true) :
    okTailLen (FileProtocolInfo.new_uninit L addr storage name) = some (name.length + 1) ∧
    (okData (FileProtocolInfo.new_uninit L addr storage name)).map
        (fun d => readLE d (L.nameOffset + 2 * name.length) 2) = some 0 ∧
    infoSize L name.length = L.nameOffset + (name.length + 1) * 2 := by
  cases hr : FileProtocolInfo.new_uninit L addr storage name with
  | panicked => rw [hr] at h; simp [isOk] at h
  | error e dd => rw [hr] at h; simp [isOk] at h
  | ok dd nn =>
    obtain ⟨-, hn, hlen, -, hdd⟩ := new_uninit_ok_inv _ _ _ _ _ _ hr
    rw [infoSize] at hlen
    refine ⟨by simp [okTailLen, hn], ?_, rfl⟩
    simp only [okData, Option.map_some', Option.some.injEq]
    rw [hdd, writeBytes_append, length_ucs2Bytes, List.length_map,
      readLE_writeBytes_toBytesLE _ _ _ _ (by norm_num)
        (by rw [length_writeBytes]; omega)]

/-- Claim C8, witness: the two-character label `"OK"` in an aligned
6-byte buffer: tail length 3, null terminator at byte offset 4,
`required_size = 0 + 3 * 2`. -/
theorem claim_C8_witness :
    isOk (FileProtocolInfo.new_uninit FileSystemVolumeLabel.layout 0
        (List.replicate 6 1) (['O', 'K'])) = true ∧
    (okTailLen (FileProtocolInfo.new_uninit FileSystemVolumeLabel.layout 0
        (List.replicate 6 1) (['O', 'K'])) = some (2 + 1) ∧
      (okData (FileProtocolInfo.new_uninit FileSystemVolumeLabel.layout 0
          (List.replicate 6 1) (['O', 'K']))).map
        (fun d => readLE d (FileSystemVolumeLabel.layout.nameOffset + 2 * 2) 2) = some 0 ∧
      infoSize FileSystemVolumeLabel.layout 2
        = FileSystemVolumeLabel.layout.nameOffset + (2 + 1) * 2) :=
  ⟨by decide,
    claim_C8 FileSystemVolumeLabel.layout 0 (List.replicate 6 1) (['O', 'K']) (by decide)⟩

/-- Claim C5, counterexample: the one-character name `[U+0000]` is made
of UCS-2-representable characters only, the buffer is aligned and large
enough, construction succeeds — but reading the tail back through
`name_str` yields the empty string, not the original name: an embedded
null truncates the read-back. -/
theorem claim_C5_counterexample :
    isOk (FileProtocolInfo.new_uninit FileSystemVolumeLabel.layout 0 ([7, 7, 7, 7])
        ([Char.ofNat 0])) = true ∧
    (okData (FileProtocolInfo.new_uninit FileSystemVolumeLabel.layout 0 ([7, 7, 7, 7])
        ([Char.ofNat 0]))).map (FileProtocolInfo.name_str FileSystemVolumeLabel.layout)
      = some [] ∧
    (([] : List Nat) ≠ ([Char.ofNat 0]).map Char.toNat) := by
  refine ⟨by decide, by decide, by decide⟩

/-- Claim C5 (amended): for every aligned, large-enough buffer and every
name of UCS-2-representable characters none of which is the null
character, construction succeeds and `name_str` reads back exactly the
original name's code units. -/
theorem claim_C5_amended (L : Layout) (addr : Nat) (storage : List Nat) (name : List Char)
    (halign : addr % L.align = 0) (hlen : infoSize L name.length ≤ storage.length)
    (hval : ∀ c ∈ name, c.toNat ≤ 0xFFFF) (hnz : ∀ c ∈ name, c.toNat ≠ 0) :
    isOk (FileProtocolInfo.new_uninit L addr storage name) = true ∧
    (okData (FileProtocolInfo.new_uninit L addr storage name)).map
        (FileProtocolInfo.name_str L) = some (name.map Char.toNat) := by
  have hr := new_uninit_ok_of L addr storage name halign hlen hval
  have hs := name_str_new_uninit _ _ _ _ _ _ hr
  rw [hr]
  refine ⟨rfl, ?_⟩
  simp only [okData, Option.map_some', Option.some.injEq]
  rw [hs, takeWhile_eq_self_of_nonzero _ (by
    intro u hu
    obtain ⟨c, hc, rfl⟩ := List.mem_map.mp hu
    exact hnz c hc)]

/-- Claim C5 (amended), witness: label `"EF"` in an aligned 6-byte
buffer reads back as `[69, 70]`. -/
theorem claim_C5_witness :
    ((0 : Nat) % FileSystemVolumeLabel.layout.align = 0) ∧
    infoSize FileSystemVolumeLabel.layout 2 ≤ ([9, 9, 9, 9, 9, 9] : List Nat).length ∧
    (isOk (FileProtocolInfo.new_uninit FileSystemVolumeLabel.layout 0
        ([9, 9, 9, 9, 9, 9]) (['E', 'F'])) = true ∧
      (okData (FileProtocolInfo.new_uninit FileSystemVolumeLabel.layout 0
          ([9, 9, 9, 9, 9, 9]) (['E', 'F']))).map
        (FileProtocolInfo.name_str FileSystemVolumeLabel.layout)
      = some ((['E', 'F'] : List Char).map Char.toNat)) :=
  ⟨by decide, by decide,
    claim_C5_amended FileSystemVolumeLabel.layout 0 ([9, 9, 9, 9, 9, 9]) (['E', 'F'])
      (by decide) (by decide) (by decide) (by decide)⟩

/-- Claim C9: `FileSystemVolumeLabel` with label `"EFI"`: the tail needs
4 characters (3 + terminator), the required size is `0 + 4 * 2 = 8`
bytes; an aligned 8-byte buffer succeeds (with tail length 4), and a
7-byte buffer fails with `InsufficientStorage 8`, the constructor being
exactly the generic builder step. -/
theorem claim_C9 :
    infoSize FileSystemVolumeLabel.layout 3 = 0 + 4 * 2 ∧
    okTailLen (FileSystemVolumeLabel.new 0 (List.replicate 8 0) (['E', 'F', 'I']))
      = some 4 ∧
    FileSystemVolumeLabel.new 0 (List.replicate 7 0) (['E', 'F', 'I'])
      = .error (.insufficientStorage 8) (List.replicate 7 0) ∧
    FileSystemVolumeLabel.new 0 (List.replicate 8 0) (['E', 'F', 'I'])
      = FileProtocolInfo.new_uninit FileSystemVolumeLabel.layout 0 (List.replicate 8 0)
          (['E', 'F', 'I']) := by
  refine ⟨by decide, by decide, by decide, rfl⟩

/-- Claim C1, code bug: the spec's invariant is "stored size == actual
in-memory footprint", but the code stores `mem::size_of_val(&info)`
where `info : &mut Self` — the size of the `&mut Self` fat reference
itself (`size_of_val_ref` = 16 on the 64-bit targets), the same
constant for every record, never the record's footprint.  At the
failing input — `FileSystemInfo::new` with an empty label in an
aligned 40-byte buffer — the construction succeeds and the stored
`size` field reads back as 16, while the claimed footprint
`name_offset() + (char_count + 1) * 2` is `36 + 2 = 38`. -/
theorem claim_C1_bug :
    (okData (FileSystemInfo.new 0 (List.replicate 40 0) false 0 0 0 [])).map
        (fun d => readLE d 0 8) = some size_of_val_ref ∧
      size_of_val_ref = 16 ∧ infoSize FileSystemInfo.layout 0 = 38 ∧ (16 : Nat) ≠ 38 := by
  refine ⟨by decide, by decide, by decide, by decide⟩

/-- Claim C6: for every record successfully built by a typed constructor
(`FileSystemVolumeLabel::new`, `FileSystemInfo::new`, `FileInfo::new`,
with header field values in their machine-integer ranges and a name with
no embedded null), reinterpreting the final buffer bytes through
`from_uefi` yields a view with exactly the original header field values —
including the stored `size`, which the source computes (buggily, see
claim C1) as the size of the `&mut Self` fat reference,
`size_of_val_ref` = 16, and which reads back as exactly that stored
value — exactly the original name text, and the same tail length as the
originally returned reference. -/
theorem claim_C6_roundtrip
    (addrV : Nat) (stV : List Nat) (labelV : List Char)
    (hV : isOk (FileSystemVolumeLabel.new addrV stV labelV) = true)
    (hVnz : ∀ c ∈ labelV, c.toNat ≠ 0)
    (addrS : Nat) (stS : List Nat) (ro : Bool) (vs fs bs : Nat) (labelS : List Char)
    (hS : isOk (FileSystemInfo.new addrS stS ro vs fs bs labelS) = true)
    (hSnz : ∀ c ∈ labelS, c.toNat ≠ 0)
    (hvs : vs < 2 ^ 64) (hfs : fs < 2 ^ 64) (hbs : bs < 2 ^ 32)
    (ts addrF : Nat) (stF : List Nat) (file_size physical_size : Nat)
    (ct lat mt : List Nat) (attr : Nat) (nameF : List Char)
    (hF : isOk (FileInfo.new ts addrF stF file_size physical_size ct lat mt attr nameF)
      = true)
    (hFnz : ∀ c ∈ nameF, c.toNat ≠ 0)
    (hct : ct.length = ts) (hlat : lat.length = ts) (hmt : mt.length = ts)
    (hfsz : file_size < 2 ^ 64) (hpsz : physical_size < 2 ^ 64) (hattr : attr < 2 ^ 64) :
    ((okData (FileSystemVolumeLabel.new addrV stV labelV)).map (fun d =>
        (FileProtocolInfo.name_str FileSystemVolumeLabel.layout
          (FileProtocolInfo.from_uefi FileSystemVolumeLabel.layout d).1,
         (FileProtocolInfo.from_uefi FileSystemVolumeLabel.layout d).2))
      = some (labelV.map Char.toNat, labelV.length + 1) ∧
     okTailLen (FileSystemVolumeLabel.new addrV stV labelV) = some (labelV.length + 1)) ∧
    ((okData (FileSystemInfo.new addrS stS ro vs fs bs labelS)).map (fun d =>
        (readLE (FileProtocolInfo.from_uefi FileSystemInfo.layout d).1 0 8,
         readLE (FileProtocolInfo.from_uefi FileSystemInfo.layout d).1 8 1,
         readLE (FileProtocolInfo.from_uefi FileSystemInfo.layout d).1 16 8,
         readLE (FileProtocolInfo.from_uefi FileSystemInfo.layout d).1 24 8,
         readLE (FileProtocolInfo.from_uefi FileSystemInfo.layout d).1 32 4,
         FileProtocolInfo.name_str FileSystemInfo.layout
           (FileProtocolInfo.from_uefi FileSystemInfo.layout d).1,
         (FileProtocolInfo.from_uefi FileSystemInfo.layout d).2))
      = some (size_of_val_ref,
          (if ro then (1 : Nat) else 0), vs, fs, bs, labelS.map Char.toNat,
          labelS.length + 1) ∧
     okTailLen (FileSystemInfo.new addrS stS ro vs fs bs labelS)
       = some (labelS.length + 1)) ∧
    ((okData (FileInfo.new ts addrF stF file_size physical_size ct lat mt attr nameF)).map
        (fun d =>
        (readLE (FileProtocolInfo.from_uefi (FileInfo.layout ts) d).1 0 8,
         readLE (FileProtocolInfo.from_uefi (FileInfo.layout ts) d).1 8 8,
         readLE (FileProtocolInfo.from_uefi (FileInfo.layout ts) d).1 16 8,
         readBytes (FileProtocolInfo.from_uefi (FileInfo.layout ts) d).1 24 ts,
         readBytes (FileProtocolInfo.from_uefi (FileInfo.layout ts) d).1 (24 + ts) ts,
         readBytes (FileProtocolInfo.from_uefi (FileInfo.layout ts) d).1 (24 + 2 * ts) ts,
         readLE (FileProtocolInfo.from_uefi (FileInfo.layout ts) d).1
           (FileInfo.attrOffset ts) 8,
         FileProtocolInfo.name_str (FileInfo.layout ts)
           (FileProtocolInfo.from_uefi (FileInfo.layout ts) d).1,
         (FileProtocolInfo.from_uefi (FileInfo.layout ts) d).2))
      = some (size_of_val_ref, file_size, physical_size,
          ct, lat, mt, attr, nameF.map Char.toNat, nameF.length + 1) ∧
     okTailLen (FileInfo.new ts addrF stF file_size physical_size ct lat mt attr nameF)
       = some (nameF.length + 1)) := by
  refine ⟨?_, ?_, ?_⟩
  · cases hr : FileSystemVolumeLabel.new addrV stV labelV with
    | panicked => rw [hr] at hV; simp [isOk] at hV
    | error e dd => rw [hr] at hV; simp [isOk] at hV
    | ok dd nn =>
      rw [FileSystemVolumeLabel.new] at hr
      obtain ⟨-, hn, -, -, -⟩ := new_uninit_ok_inv _ _ _ _ _ _ hr
      have hname : FileProtocolInfo.name_str FileSystemVolumeLabel.layout dd
          = labelV.map Char.toNat := by
        rw [name_str_new_uninit _ _ _ _ _ _ hr, takeWhile_eq_self_of_nonzero _ (by
          intro u hu
          obtain ⟨c, hc, rfl⟩ := List.mem_map.mp hu
          exact hVnz c hc)]
      have hscan := hname
      rw [FileProtocolInfo.name_str] at hscan
      simp only [okData, okTailLen, Option.map_some', Option.some.injEq,
        FileProtocolInfo.from_uefi, FileProtocolInfo.name_str]
      rw [hscan]
      simp [hn]
  · cases hr : FileSystemInfo.new addrS stS ro vs fs bs labelS with
    | panicked => rw [hr] at hS; simp [isOk] at hS
    | error e dd => rw [hr] at hS; simp [isOk] at hS
    | ok dd nn =>
      obtain ⟨r1, r2, r3, r4, r5, r6, hnn, -⟩ :=
        fileSystemInfo_new_ok_reads _ _ _ _ _ _ _ _ _ hr hvs hfs hbs
      have hname : FileProtocolInfo.name_str FileSystemInfo.layout dd
          = labelS.map Char.toNat := by
        rw [r6, takeWhile_eq_self_of_nonzero _ (by
          intro u hu
          obtain ⟨c, hc, rfl⟩ := List.mem_map.mp hu
          exact hSnz c hc)]
      have hscan := hname
      rw [FileProtocolInfo.name_str] at hscan
      simp only [okData, okTailLen, Option.map_some', Option.some.injEq,
        FileProtocolInfo.from_uefi, FileProtocolInfo.name_str]
      rw [hscan, r1, r2, r3, r4, r5]
      simp [hnn]
  · cases hr : FileInfo.new ts addrF stF file_size physical_size ct lat mt attr nameF with
    | panicked => rw [hr] at hF; simp [isOk] at hF
    | error e dd => rw [hr] at hF; simp [isOk] at hF
    | ok dd nn =>
      obtain ⟨r1, r2, r3, r4, r5, r6, r7, r8, hnn, -⟩ :=
        fileInfo_new_ok_reads _ _ _ _ _ _ _ _ _ _ _ _ hr hct hlat hmt hfsz hpsz hattr
      have hname : FileProtocolInfo.name_str (FileInfo.layout ts) dd
          = nameF.map Char.toNat := by
        rw [r8, takeWhile_eq_self_of_nonzero _ (by
          intro u hu
          obtain ⟨c, hc, rfl⟩ := List.mem_map.mp hu
          exact hFnz c hc)]
      have hscan := hname
      rw [FileProtocolInfo.name_str] at hscan
      simp only [okData, okTailLen, Option.map_some', Option.some.injEq,
        FileProtocolInfo.from_uefi, FileProtocolInfo.name_str]
      rw [hscan, r1, r2, r3, r4, r5, r6, r7]
      simp [hnn]

/-- Claim C6, witness: concrete round trips — volume label `"EFI"` in 8
bytes, `FileSystemInfo` with label `"A"` in 40 bytes, and `FileInfo`
(16-byte `Time`) with name `"Z"` in 88 bytes. -/
theorem claim_C6_witness :
    isOk (FileSystemVolumeLabel.new 0 (List.replicate 8 2) (['E', 'F', 'I'])) = true ∧
    isOk (FileSystemInfo.new 0 (List.replicate 40 0) true 1 2 3 (['A'])) = true ∧
    isOk (FileInfo.new 16 0 (List.replicate 88 7) 1 2 (List.replicate 16 3)
      (List.replicate 16 4) (List.replicate 16 5) 6 (['Z'])) = true ∧
    (((okData (FileSystemVolumeLabel.new 0 (List.replicate 8 2) (['E', 'F', 'I']))).map
        (fun d =>
        (FileProtocolInfo.name_str FileSystemVolumeLabel.layout
          (FileProtocolInfo.from_uefi FileSystemVolumeLabel.layout d).1,
         (FileProtocolInfo.from_uefi FileSystemVolumeLabel.layout d).2))
      = some ([69, 70, 73], 4) ∧
      okTailLen (FileSystemVolumeLabel.new 0 (List.replicate 8 2) (['E', 'F', 'I']))
        = some 4) ∧
    ((okData (FileSystemInfo.new 0 (List.replicate 40 0) true 1 2 3 (['A']))).map (fun d =>
        (readLE (FileProtocolInfo.from_uefi FileSystemInfo.layout d).1 0 8,
         readLE (FileProtocolInfo.from_uefi FileSystemInfo.layout d).1 8 1,
         readLE (FileProtocolInfo.from_uefi FileSystemInfo.layout d).1 16 8,
         readLE (FileProtocolInfo.from_uefi FileSystemInfo.layout d).1 24 8,
         readLE (FileProtocolInfo.from_uefi FileSystemInfo.layout d).1 32 4,
         FileProtocolInfo.name_str FileSystemInfo.layout
           (FileProtocolInfo.from_uefi FileSystemInfo.layout d).1,
         (FileProtocolInfo.from_uefi FileSystemInfo.layout d).2))
      = some (16, 1, 1, 2, 3, [65], 2) ∧
      okTailLen (FileSystemInfo.new 0 (List.replicate 40 0) true 1 2 3 (['A']))
        = some 2) ∧
    ((okData (FileInfo.new 16 0 (List.replicate 88 7) 1 2 (List.replicate 16 3)
        (List.replicate 16 4) (List.replicate 16 5) 6 (['Z']))).map (fun d =>
        (readLE (FileProtocolInfo.from_uefi (FileInfo.layout 16) d).1 0 8,
         readLE (FileProtocolInfo.from_uefi (FileInfo.layout 16) d).1 8 8,
         readLE (FileProtocolInfo.from_uefi (FileInfo.layout 16) d).1 16 8,
         readBytes (FileProtocolInfo.from_uefi (FileInfo.layout 16) d).1 24 16,
         readBytes (FileProtocolInfo.from_uefi (FileInfo.layout 16) d).1 (24 + 16) 16,
         readBytes (FileProtocolInfo.from_uefi (FileInfo.layout 16) d).1 (24 + 2 * 16) 16,
         readLE (FileProtocolInfo.from_uefi (FileInfo.layout 16) d).1
           (FileInfo.attrOffset 16) 8,
         FileProtocolInfo.name_str (FileInfo.layout 16)
           (FileProtocolInfo.from_uefi (FileInfo.layout 16) d).1,
         (FileProtocolInfo.from_uefi (FileInfo.layout 16) d).2))
      = some (16, 1, 2, List.replicate 16 3, List.replicate 16 4, List.replicate 16 5,
          6, [90], 2) ∧
      okTailLen (FileInfo.new 16 0 (List.replicate 88 7) 1 2 (List.replicate 16 3)
        (List.replicate 16 4) (List.replicate 16 5) 6 (['Z'])) = some 2)) :=
  ⟨by decide, by decide, by decide,
    claim_C6_roundtrip 0 (List.replicate 8 2) (['E', 'F', 'I']) (by decide) (by decide)
      0 (List.replicate 40 0) true 1 2 3 (['A']) (by decide) (by decide) (by decide)
      (by decide) (by decide)
      16 0 (List.replicate 88 7) 1 2 (List.replicate 16 3) (List.replicate 16 4)
      (List.replicate 16 5) 6 (['Z']) (by decide) (by decide) (by decide) (by decide)
      (by decide) (by decide) (by decide) (by decide)⟩

end UefiFileInfo
